import Mathlib

/-!
# Fee-Tracker core: shallow embedding and verification

This file embeds the core subsystems of the Fee-Tracker repository in Lean 4
and proves the specified properties about them:

* `src/lib/proof-of-history.ts` — hash-linked proof-of-history chain
  (record digest, chain verification, chain manager append, export/import);
* `src/lib/classifier.ts` — transaction classifier (`classifyTransaction`,
  `safeBigInt`, `hasSwapInstruction`, `findBurnInTransaction`);
* `src/lib/badges.ts` — burn-percentage and badge-tier computation;
* `src/workers/indexer.ts` + the db layer — idempotent event ledger and
  aggregate recomputation.

Host-runtime primitives that are not repository code (SHA-256 from node
`crypto`, `Date.toISOString`/`new Date`, `BigInt(string)`, `JSON`
stringify/parse) are modelled explicitly; each model carries a doc comment
saying what it abstracts.  The cryptographic digest is taken as a parameter
`hashFn : String → String`; tamper-evidence theorems assume it is injective
(collision-freeness), which is exactly the working assumption the spec's
tamper-evidence property rests on.
-/

namespace FeeTracker

/-! ## Decimal rendering and parsing

JavaScript renders integers in base 10 (`Number.prototype.toString`,
`BigInt.prototype.toString`) and `BigInt(string)` parses decimal text.  We
implement both by structural recursion (so proofs can evaluate them) and
prove that parsing is a left inverse of rendering. -/

/-- The character for a decimal digit `d < 10` (codepoint 48 + d). -/
def digitChar (d : Nat) : Char := Char.ofNat (48 + d)

/-- Numeric value of a decimal digit character. -/
def digitVal (c : Char) : Nat := c.toNat - 48

/-- Digits of `n` in base 10, least significant first; `fuel` bounds the
recursion (any `fuel > n` is enough). -/
def natToDigitsRev : Nat → Nat → List Char
  | 0, _ => []
  | fuel + 1, n => if n = 0 then [] else digitChar (n % 10) :: natToDigitsRev fuel (n / 10)

/-- Base-10 rendering of a natural number, as JavaScript's `toString`. -/
def natToDecimal (n : Nat) : String :=
  if n = 0 then "0" else String.mk (natToDigitsRev (n + 1) n).reverse

/-- Fold a most-significant-first digit-character list into a number. -/
def decimalToNatAux : List Char → Nat → Nat
  | [], acc => acc
  | c :: cs, acc => decimalToNatAux cs (acc * 10 + digitVal c)

/-- Parse a decimal digit string. -/
def decimalToNat (s : String) : Nat := decimalToNatAux s.data 0

/-- Base-10 rendering of an integer, as JavaScript's `toString`
(`-` sign followed by the digits of the absolute value). -/
def intToDecimal (n : Int) : String :=
  if n < 0 then "-" ++ natToDecimal n.natAbs else natToDecimal n.toNat

/-- Parse decimal text (with optional leading `-`) into an integer. -/
def decimalToInt (s : String) : Int :=
  match s.data with
  | '-' :: rest => -(decimalToNatAux rest 0 : Int)
  | _ => (decimalToNat s : Int)

/-- Value of a least-significant-first digit-character list. -/
def valRev : List Char → Nat
  | [] => 0
  | c :: cs => digitVal c + 10 * valRev cs

theorem digitVal_digitChar (d : Nat) (hd : d < 10) : digitVal (digitChar d) = d := by
  interval_cases d <;> decide

theorem toNat_digitChar_mem_range (d : Nat) (hd : d < 10) :
    48 ≤ (digitChar d).toNat ∧ (digitChar d).toNat ≤ 57 := by
  interval_cases d <;> decide

theorem valRev_natToDigitsRev : ∀ fuel n : Nat, n < fuel → valRev (natToDigitsRev fuel n) = n
  | 0, n, h => absurd h (Nat.not_lt_zero n)
  | fuel + 1, n, h => by
    unfold natToDigitsRev
    by_cases hn : n = 0
    · simp [hn, valRev]
    · have hdiv : n / 10 < fuel := by
        have h1 : n / 10 < n := Nat.div_lt_self (Nat.pos_of_ne_zero hn) (by norm_num)
        omega
      simp only [hn, if_false, valRev]
      rw [valRev_natToDigitsRev fuel (n / 10) hdiv,
        digitVal_digitChar (n % 10) (Nat.mod_lt n (by norm_num))]
      omega

theorem mem_natToDigitsRev : ∀ fuel n : Nat, ∀ c ∈ natToDigitsRev fuel n,
    48 ≤ c.toNat ∧ c.toNat ≤ 57
  | 0, _, _, hc => absurd hc (List.not_mem_nil _)
  | fuel + 1, n, c, hc => by
    unfold natToDigitsRev at hc
    by_cases hn : n = 0
    · simp [hn] at hc
    · simp only [hn, if_false, List.mem_cons] at hc
      rcases hc with hc | hc
      · subst hc
        exact toNat_digitChar_mem_range (n % 10) (Nat.mod_lt n (by norm_num))
      · exact mem_natToDigitsRev fuel (n / 10) c hc

theorem decimalToNatAux_append (xs ys : List Char) (acc : Nat) :
    decimalToNatAux (xs ++ ys) acc = decimalToNatAux ys (decimalToNatAux xs acc) := by
  induction xs generalizing acc with
  | nil => rfl
  | cons c cs ih => simp [decimalToNatAux, ih]

theorem decimalToNatAux_reverse (l : List Char) : decimalToNatAux l.reverse 0 = valRev l := by
  induction l with
  | nil => rfl
  | cons c cs ih =>
    rw [List.reverse_cons, decimalToNatAux_append, ih]
    simp only [decimalToNatAux, valRev]
    omega

theorem decimalToNat_natToDecimal (n : Nat) : decimalToNat (natToDecimal n) = n := by
  unfold natToDecimal
  by_cases hn : n = 0
  · simp only [hn, if_true]
    decide
  · simp only [hn, if_false]
    show decimalToNatAux (natToDigitsRev (n + 1) n).reverse 0 = n
    rw [decimalToNatAux_reverse, valRev_natToDigitsRev (n + 1) n (Nat.lt_succ_self n)]

theorem mem_natToDecimal_data (n : Nat) : ∀ c ∈ (natToDecimal n).data,
    48 ≤ c.toNat ∧ c.toNat ≤ 57 := by
  unfold natToDecimal
  by_cases hn : n = 0
  · simp only [hn, if_true]
    decide
  · simp only [hn, if_false]
    intro c hc
    have hc' : c ∈ natToDigitsRev (n + 1) n := by
      have : c ∈ (natToDigitsRev (n + 1) n).reverse := hc
      simpa using this
    exact mem_natToDigitsRev (n + 1) n c hc'

theorem decimalToInt_natToDecimal (n : Nat) : decimalToInt (natToDecimal n) = (n : Int) := by
  unfold decimalToInt
  split
  · rename_i rest heq
    exfalso
    have hmem : '-' ∈ (natToDecimal n).data := by
      rw [heq]; exact List.mem_cons_self _ _
    exact absurd (mem_natToDecimal_data n '-' hmem) (by decide)
  · rw [decimalToNat_natToDecimal]

theorem decimalToInt_intToDecimal (n : Int) : decimalToInt (intToDecimal n) = n := by
  unfold intToDecimal
  by_cases hn : n < 0
  · simp only [hn, if_true]
    have hdata : ("-" ++ natToDecimal n.natAbs).data = '-' :: (natToDecimal n.natAbs).data := rfl
    unfold decimalToInt
    rw [hdata]
    show -(decimalToNatAux (natToDecimal n.natAbs).data 0 : Int) = n
    have : decimalToNatAux (natToDecimal n.natAbs).data 0 = n.natAbs :=
      decimalToNat_natToDecimal n.natAbs
    rw [this]
    omega
  · simp only [hn, if_false]
    rw [decimalToInt_natToDecimal]
    omega

theorem intToDecimal_injective : Function.Injective intToDecimal :=
  Function.LeftInverse.injective decimalToInt_intToDecimal

/-! ## Proof-of-history chain (`src/lib/proof-of-history.ts`)

Records, record digest, chain verification, and the chain manager.

JavaScript `number`s in these records (`sequence`, `slot`) only ever hold
integers here, and `amountLamports` is a `BigInt`; all are embedded as `Int`.
A `Date` is its epoch-millisecond value, embedded as `Int`. -/

/-- Field `eventType`: `"collect" | "burn" | "withdraw"` (shared by the classifier's
`FeeEventType` and the PoH record). -/
inductive EventType where
  | collect
  | burn
  | withdraw
deriving DecidableEq, Repr, Inhabited

/-- The string the source serializes an event type as. -/
def EventType.toStr : EventType → String
  | .collect => "collect"
  | .burn => "burn"
  | .withdraw => "withdraw"

/-- Field `vault`: `"BC" | "AMM" | "UNKNOWN"`. -/
inductive VaultLabel where
  | BC
  | AMM
  | UNKNOWN
deriving DecidableEq, Repr, Inhabited

/-- The string the source serializes a vault label as. -/
def VaultLabel.toStr : VaultLabel → String
  | .BC => "BC"
  | .AMM => "AMM"
  | .UNKNOWN => "UNKNOWN"

/-- Genesis sentinel: `GENESIS_HASH = "0".repeat(64)`. -/
def GENESIS_HASH : String := String.mk (List.replicate 64 '0')

/-- Structure `PoHRecord` from `proof-of-history.ts`.  Optional fields (`slot?`,
`tokenSymbol?`) are `Option`s; `timestamp : Date` is epoch milliseconds. -/
structure PoHRecord where
  sequence : Int
  hash : String
  prevHash : String
  timestamp : Int
  slot : Option Int
  eventType : EventType
  vault : VaultLabel
  tokenMint : String
  tokenSymbol : Option String
  amountLamports : Int
  signature : String
deriving DecidableEq, Repr, Inhabited

/-- Modelled host primitive (not repository code): `Date.prototype.toISOString`,
which renders a Date's epoch-millisecond value losslessly as ISO-8601 text
(the spec only requires "a standard sortable textual date-time format" that
round-trips).  Modelled as a lossless decimal rendering of the millisecond
value; `parseISODate` below is its exact inverse, as `new Date(string)` is on
ISO output. -/
def dateToISO (ms : Int) : String := intToDecimal ms

/-- Modelled host primitive (not repository code): `new Date(isoText)`, the
exact inverse of `dateToISO`. -/
def parseISODate (s : String) : Int := decimalToInt s

/-- The `data` string of `generateHash`: the nine fields joined with `"|"`
(note: `hash` and `tokenSymbol` are not serialized; the source hashes
`Omit<PoHRecord, "hash">` and leaves `tokenSymbol` out of the field list;
`record.slot?.toString() || "0"` renders a missing slot as `"0"`). -/
def serializeRecord (r : PoHRecord) : String :=
  intToDecimal r.sequence ++ "|" ++
  r.prevHash ++ "|" ++
  dateToISO r.timestamp ++ "|" ++
  (match r.slot with
   | some s => intToDecimal s
   | none => "0") ++ "|" ++
  r.eventType.toStr ++ "|" ++
  r.vault.toStr ++ "|" ++
  r.tokenMint ++ "|" ++
  intToDecimal r.amountLamports ++ "|" ++
  r.signature

/-- Function `generateHash`: SHA-256 of the serialized record.  The digest itself is a
host-library primitive (`node:crypto`), so it is a parameter `hashFn`;
tamper-evidence results assume `hashFn` is injective. -/
def generateHash (hashFn : String → String) (r : PoHRecord) : String :=
  hashFn (serializeRecord r)

/-- Function `verifyRecordHash`: a record's stored `hash` equals the recomputed digest. -/
def verifyRecordHash (hashFn : String → String) (r : PoHRecord) : Bool :=
  r.hash == generateHash hashFn r

/-- Result type of `verifyChain`. -/
structure VerifyResult where
  valid : Bool
  invalidAt : Option Nat
  error : Option String
deriving DecidableEq, Repr

/-- The sort `[...records].sort((a, b) => a.sequence - b.sequence)`: a stable
ascending sort by `sequence`. -/
def sortBySequence (records : List PoHRecord) : List PoHRecord :=
  records.mergeSort fun a b => decide (a.sequence ≤ b.sequence)

/-- The `for` loop of `verifyChain`: per record, hash check; from the second
record on, chain-link check then sequence-contiguity check. -/
def verifyLoop (hashFn : String → String) :
    Option PoHRecord → Nat → List PoHRecord → VerifyResult
  | _, _, [] => ⟨true, none, none⟩
  | prev, i, r :: rest =>
    if verifyRecordHash hashFn r = false then
      ⟨false, some i, some ("Record " ++ intToDecimal r.sequence ++ ": Hash mismatch")⟩
    else
      match prev with
      | none => verifyLoop hashFn (some r) (i + 1) rest
      | some p =>
        if r.prevHash ≠ p.hash then
          ⟨false, some i, some ("Record " ++ intToDecimal r.sequence ++ ": Chain link broken")⟩
        else if r.sequence ≠ p.sequence + 1 then
          ⟨false, some i, some ("Record " ++ intToDecimal r.sequence ++ ": Sequence gap detected")⟩
        else verifyLoop hashFn (some r) (i + 1) rest

/-- Function `verifyChain`: empty chains are valid; otherwise sort by sequence, check
genesis linkage for a first record with sequence 1, then scan.  (The empty
case of the source's early return coincides with the empty sort.) -/
def verifyChain (hashFn : String → String) (records : List PoHRecord) : VerifyResult :=
  match sortBySequence records with
  | [] => ⟨true, none, none⟩
  | r0 :: rest =>
    if r0.prevHash ≠ GENESIS_HASH ∧ r0.sequence = 1 then
      ⟨false, some 0, some "First record does not link to genesis hash"⟩
    else verifyLoop hashFn none 0 (r0 :: rest)

/-- In-memory state of `PoHChainManager`: `lastHash`, `lastSequence`. -/
structure ChainState where
  lastHash : String
  lastSequence : Int
deriving DecidableEq, Repr

/-- A fresh manager: `lastHash = GENESIS_HASH`, `lastSequence = 0`. -/
def initialState : ChainState := ⟨GENESIS_HASH, 0⟩

/-- Argument of `PoHChainManager.addEvent`.  The source stamps each record
with `new Date()`; the clock value is injected here as `timestamp`
(dependency injection per spec §9). -/
structure EventInput where
  eventType : EventType
  vault : VaultLabel
  amountLamports : Int
  signature : String
  tokenSymbol : Option String
  slot : Option Int
  timestamp : Int
deriving DecidableEq, Repr

/-- Method `PoHChainManager.addEvent`: `sequence = lastSequence + 1`,
`prevHash = lastHash`, digest over the record data, then advance the state. -/
def addEvent (hashFn : String → String) (tokenMint : String) (st : ChainState)
    (e : EventInput) : PoHRecord × ChainState :=
  let sequence := st.lastSequence + 1
  let recordData : PoHRecord :=
    { sequence := sequence
      hash := ""
      prevHash := st.lastHash
      timestamp := e.timestamp
      slot := e.slot
      eventType := e.eventType
      vault := e.vault
      tokenMint := tokenMint
      tokenSymbol := e.tokenSymbol
      amountLamports := e.amountLamports
      signature := e.signature }
  let hash := generateHash hashFn recordData
  ({ recordData with hash := hash }, ⟨hash, sequence⟩)

/-- The stored records produced by running `addEvent` over a list of events
starting from `st`. -/
def buildChainFrom (hashFn : String → String) (tokenMint : String) :
    ChainState → List EventInput → List PoHRecord
  | _, [] => []
  | st, e :: es =>
    let re := addEvent hashFn tokenMint st e
    re.1 :: buildChainFrom hashFn tokenMint re.2 es

/-- The chain built by N sequential appends from an empty chain. -/
def buildChain (hashFn : String → String) (tokenMint : String)
    (events : List EventInput) : List PoHRecord :=
  buildChainFrom hashFn tokenMint initialState events

/-- The chain-integrity invariant relative to a starting link `(ph, s)`:
each record links to its predecessor's hash, increments the sequence, and
carries a correct digest. -/
def WellChained (hashFn : String → String) : String → Int → List PoHRecord → Prop
  | _, _, [] => True
  | ph, s, r :: rest =>
    r.prevHash = ph ∧ r.sequence = s + 1 ∧ r.hash = generateHash hashFn r ∧
      WellChained hashFn r.hash r.sequence rest

theorem WellChained_seq_lt (hashFn : String → String) :
    ∀ (l : List PoHRecord) (ph : String) (s : Int), WellChained hashFn ph s l →
      ∀ r ∈ l, s < r.sequence
  | [], _, _, _, r, hr => absurd hr (List.not_mem_nil r)
  | a :: rest, ph, s, h, r, hr => by
    obtain ⟨_, h2, _, h4⟩ := h
    rcases List.mem_cons.mp hr with hr | hr
    · subst hr; omega
    · have := WellChained_seq_lt hashFn rest a.hash a.sequence h4 r hr
      omega

theorem WellChained_pairwise (hashFn : String → String) :
    ∀ (l : List PoHRecord) (ph : String) (s : Int), WellChained hashFn ph s l →
      l.Pairwise fun a b => a.sequence < b.sequence
  | [], _, _, _ => List.Pairwise.nil
  | a :: rest, ph, s, h => by
    obtain ⟨_, h2, _, h4⟩ := h
    exact List.Pairwise.cons (WellChained_seq_lt hashFn rest a.hash a.sequence h4)
      (WellChained_pairwise hashFn rest a.hash a.sequence h4)

theorem WellChained_hash_ok (hashFn : String → String) :
    ∀ (l : List PoHRecord) (ph : String) (s : Int), WellChained hashFn ph s l →
      ∀ r ∈ l, r.hash = generateHash hashFn r
  | [], _, _, _, r, hr => absurd hr (List.not_mem_nil r)
  | a :: rest, ph, s, h, r, hr => by
    obtain ⟨_, _, h3, h4⟩ := h
    rcases List.mem_cons.mp hr with hr | hr
    · subst hr; exact h3
    · exact WellChained_hash_ok hashFn rest a.hash a.sequence h4 r hr

/-- A well-chained list is already sorted, so the verifier's sort is the
identity on it. -/
theorem sortBySequence_of_wellChained (hashFn : String → String)
    (l : List PoHRecord) (ph : String) (s : Int) (h : WellChained hashFn ph s l) :
    sortBySequence l = l := by
  apply List.mergeSort_of_sorted
  have := WellChained_pairwise hashFn l ph s h
  exact this.imp fun hab => by simpa using le_of_lt hab

theorem verifyLoop_ok (hashFn : String → String) :
    ∀ (l : List PoHRecord) (p : PoHRecord) (i : Nat),
      WellChained hashFn p.hash p.sequence l →
      verifyLoop hashFn (some p) i l = ⟨true, none, none⟩
  | [], _, _, _ => rfl
  | r :: rest, p, i, h => by
    obtain ⟨h1, h2, h3, h4⟩ := h
    unfold verifyLoop
    have hvr : verifyRecordHash hashFn r = true := by
      simp [verifyRecordHash, h3]
    rw [hvr, if_neg (by decide : ¬(true = false))]
    show (if r.prevHash ≠ p.hash then _ else _) = _
    rw [if_neg (by simp [h1]), if_neg (by simp [h2])]
    exact verifyLoop_ok hashFn rest r (i + 1) h4

/-- A well-chained record list verifies as valid, as long as its first link
either is the genesis sentinel or starts at a sequence other than 1. -/
theorem verifyChain_ok (hashFn : String → String) (l : List PoHRecord)
    (ph : String) (s : Int) (h : WellChained hashFn ph s l)
    (hstart : ph = GENESIS_HASH ∨ s ≠ 0) :
    verifyChain hashFn l = ⟨true, none, none⟩ := by
  unfold verifyChain
  rw [sortBySequence_of_wellChained hashFn l ph s h]
  cases l with
  | nil => rfl
  | cons r0 rest =>
    obtain ⟨h1, h2, h3, h4⟩ := h
    have hgen : ¬(r0.prevHash ≠ GENESIS_HASH ∧ r0.sequence = 1) := by
      rcases hstart with hg | hs
      · rw [h1, hg]; simp
      · rw [h2]; intro hc; omega
    show (if r0.prevHash ≠ GENESIS_HASH ∧ r0.sequence = 1 then _ else
      verifyLoop hashFn none 0 (r0 :: rest)) = _
    rw [if_neg hgen]
    show (if verifyRecordHash hashFn r0 = false then _ else _) = _
    have hvr : verifyRecordHash hashFn r0 = true := by
      simp [verifyRecordHash, h3]
    rw [hvr, if_neg (by decide : ¬(true = false))]
    exact verifyLoop_ok hashFn rest r0 1 h4

theorem buildChainFrom_wellChained (hashFn : String → String) (tokenMint : String) :
    ∀ (events : List EventInput) (st : ChainState),
      WellChained hashFn st.lastHash st.lastSequence
        (buildChainFrom hashFn tokenMint st events)
  | [], _ => trivial
  | e :: es, st => by
    unfold buildChainFrom
    refine ⟨rfl, rfl, rfl, ?_⟩
    exact buildChainFrom_wellChained hashFn tokenMint es ⟨_, _⟩

theorem string_eq_of_data_eq {s t : String} (h : s.data = t.data) : s = t := by
  cases s; cases t; exact congrArg String.mk h

theorem verifyLoop_cons_hashfail (hashFn : String → String) (prev : Option PoHRecord)
    (i : Nat) (r : PoHRecord) (rest : List PoHRecord)
    (h : verifyRecordHash hashFn r = false) :
    verifyLoop hashFn prev i (r :: rest) =
      ⟨false, some i, some ("Record " ++ intToDecimal r.sequence ++ ": Hash mismatch")⟩ := by
  unfold verifyLoop
  rw [if_pos h]

theorem verifyLoop_cons_none (hashFn : String → String) (i : Nat) (r : PoHRecord)
    (rest : List PoHRecord) (h : ¬verifyRecordHash hashFn r = false) :
    verifyLoop hashFn none i (r :: rest) = verifyLoop hashFn (some r) (i + 1) rest := by
  conv_lhs => unfold verifyLoop
  rw [if_neg h]

theorem verifyLoop_cons_some (hashFn : String → String) (i : Nat) (r : PoHRecord)
    (rest : List PoHRecord) (p : PoHRecord) (h : ¬verifyRecordHash hashFn r = false) :
    verifyLoop hashFn (some p) i (r :: rest) =
      if r.prevHash ≠ p.hash then
        ⟨false, some i, some ("Record " ++ intToDecimal r.sequence ++ ": Chain link broken")⟩
      else if r.sequence ≠ p.sequence + 1 then
        ⟨false, some i, some ("Record " ++ intToDecimal r.sequence ++ ": Sequence gap detected")⟩
      else verifyLoop hashFn (some r) (i + 1) rest := by
  conv_lhs => unfold verifyLoop
  rw [if_neg h]

theorem verifyChain_cons_eq (hashFn : String → String) (l : List PoHRecord)
    (r0 : PoHRecord) (rest : List PoHRecord) (hsort : sortBySequence l = r0 :: rest) :
    verifyChain hashFn l =
      if r0.prevHash ≠ GENESIS_HASH ∧ r0.sequence = 1 then
        ⟨false, some 0, some "First record does not link to genesis hash"⟩
      else verifyLoop hashFn none 0 (r0 :: rest) := by
  unfold verifyChain
  rw [hsort]

/-- Changing only the `prevHash` field changes the serialized record. -/
theorem serializeRecord_ne_of_prevHash_ne (r : PoHRecord) (p : String)
    (hne : p ≠ r.prevHash) :
    serializeRecord { r with prevHash := p } ≠ serializeRecord r := by
  intro h
  apply hne
  have hd := congrArg String.data h
  simp only [serializeRecord, String.data_append, List.append_assoc] at hd
  have hd' := List.append_cancel_left hd
  have hd'' := List.append_cancel_left hd'
  exact string_eq_of_data_eq (List.append_cancel_right hd'')

/-- Changing only the `sequence` field changes the serialized record. -/
theorem serializeRecord_ne_of_sequence_ne (r : PoHRecord) (s : Int)
    (hne : s ≠ r.sequence) :
    serializeRecord { r with sequence := s } ≠ serializeRecord r := by
  intro h
  apply hne
  have hd := congrArg String.data h
  simp only [serializeRecord, String.data_append, List.append_assoc] at hd
  exact intToDecimal_injective (string_eq_of_data_eq (List.append_cancel_right hd))

/-- Record `r'` arises from `r` by changing exactly one of the `hash`, `prevHash`
or `sequence` fields. -/
def MutatesOne (r' r : PoHRecord) : Prop :=
  (∃ h, h ≠ r.hash ∧ r' = { r with hash := h }) ∨
  (∃ p, p ≠ r.prevHash ∧ r' = { r with prevHash := p }) ∨
  (∃ s, s ≠ r.sequence ∧ r' = { r with sequence := s })

/-- A record whose `hash`, `prevHash` or `sequence` has been tampered with
fails the per-record hash check (for an injective digest). -/
theorem verifyRecordHash_of_mutated (hashFn : String → String)
    (hinj : Function.Injective hashFn) (r r' : PoHRecord)
    (hgood : r.hash = generateHash hashFn r) (hm : MutatesOne r' r) :
    verifyRecordHash hashFn r' = false := by
  rw [verifyRecordHash, beq_eq_false_iff_ne]
  rcases hm with ⟨h, hne, rfl⟩ | ⟨p, hne, rfl⟩ | ⟨s, hne, rfl⟩
  · show h ≠ generateHash hashFn { r with hash := h }
    have heq : generateHash hashFn { r with hash := h } = generateHash hashFn r := rfl
    rw [heq, ← hgood]
    exact hne
  · show r.hash ≠ generateHash hashFn { r with prevHash := p }
    rw [hgood]
    intro hc
    exact serializeRecord_ne_of_prevHash_ne r p hne (hinj hc).symm
  · show r.hash ≠ generateHash hashFn { r with sequence := s }
    rw [hgood]
    intro hc
    exact serializeRecord_ne_of_sequence_ne r s hne (hinj hc).symm

/-- If some position of the scanned list fails the per-record hash check,
the scan reports invalid at that position or earlier. -/
theorem verifyLoop_fail (hashFn : String → String) (r' : PoHRecord)
    (hr : verifyRecordHash hashFn r' = false) :
    ∀ (l : List PoHRecord) (k : Nat) (prev : Option PoHRecord) (i : Nat),
      l[k]? = some r' →
      (verifyLoop hashFn prev i l).valid = false ∧
      ∃ j, (verifyLoop hashFn prev i l).invalidAt = some j ∧ j ≤ i + k
  | [], k, _, _, hk => by simp at hk
  | r :: rest, k, prev, i, hk => by
    by_cases hvr : verifyRecordHash hashFn r = false
    · rw [verifyLoop_cons_hashfail hashFn prev i r rest hvr]
      exact ⟨rfl, i, rfl, Nat.le_add_right i k⟩
    · have hk0 : k ≠ 0 := by
        intro h0
        subst h0
        simp at hk
        subst hk
        exact hvr hr
      obtain ⟨k', rfl⟩ : ∃ k', k = k' + 1 := ⟨k - 1, by omega⟩
      have hk' : rest[k']? = some r' := by simpa using hk
      cases prev with
      | none =>
        rw [verifyLoop_cons_none hashFn i r rest hvr]
        have := verifyLoop_fail hashFn r' hr rest k' (some r) (i + 1) hk'
        exact ⟨this.1, by obtain ⟨j, hj1, hj2⟩ := this.2; exact ⟨j, hj1, by omega⟩⟩
      | some p =>
        rw [verifyLoop_cons_some hashFn i r rest p hvr]
        by_cases hlink : r.prevHash ≠ p.hash
        · rw [if_pos hlink]
          exact ⟨rfl, i, rfl, by omega⟩
        · rw [if_neg hlink]
          by_cases hseq : r.sequence ≠ p.sequence + 1
          · rw [if_pos hseq]
            exact ⟨rfl, i, rfl, by omega⟩
          · rw [if_neg hseq]
            have := verifyLoop_fail hashFn r' hr rest k' (some r) (i + 1) hk'
            exact ⟨this.1, by obtain ⟨j, hj1, hj2⟩ := this.2; exact ⟨j, hj1, by omega⟩⟩

/-- If any record of the supplied list fails the per-record hash check, the
whole chain verifies as invalid, with `invalidAt` at or before some position
of that record in the sorted order. -/
theorem verifyChain_fail (hashFn : String → String) (l : List PoHRecord)
    (r' : PoHRecord) (hmem : r' ∈ l) (hr : verifyRecordHash hashFn r' = false) :
    (verifyChain hashFn l).valid = false ∧
    ∃ j k, (verifyChain hashFn l).invalidAt = some j ∧
      (sortBySequence l)[k]? = some r' ∧ j ≤ k := by
  have hmem' : r' ∈ sortBySequence l := by
    simpa [sortBySequence] using hmem
  obtain ⟨k, hk⟩ := List.mem_iff_getElem?.mp hmem'
  cases hsort : sortBySequence l with
  | nil => rw [hsort] at hk; simp at hk
  | cons r0 rest =>
    rw [hsort] at hk
    rw [verifyChain_cons_eq hashFn l r0 rest hsort]
    by_cases hgen : r0.prevHash ≠ GENESIS_HASH ∧ r0.sequence = 1
    · rw [if_pos hgen]
      exact ⟨rfl, 0, k, rfl, hk, Nat.zero_le k⟩
    · rw [if_neg hgen]
      have := verifyLoop_fail hashFn r' hr (r0 :: rest) k none 0 hk
      obtain ⟨j, hj1, hj2⟩ := this.2
      exact ⟨this.1, j, k, hj1, hk, by omega⟩

/-- C1: a chain built by N sequential appends through the PoH Chain Manager
on one token (from an empty chain; each append computes
`sequence = lastSequence + 1` and `prevHash = lastHash`) verifies as
`valid: true`; and mutating any single record's `hash`, `prevHash` or
`sequence` field makes `verifyChain` return `valid: false` with `invalidAt`
pointing at (or before) the mutated record's position in the verified
(sequence-sorted) order.  `hashFn` is the SHA-256 digest, assumed injective. -/
theorem poh_chain_integrity (hashFn : String → String)
    (hinj : Function.Injective hashFn) (tokenMint : String)
    (events : List EventInput) :
    verifyChain hashFn (buildChain hashFn tokenMint events) = ⟨true, none, none⟩ ∧
    ∀ (i : Nat) (r' : PoHRecord) (hi : i < (buildChain hashFn tokenMint events).length),
      MutatesOne r' (buildChain hashFn tokenMint events)[i] →
      (verifyChain hashFn ((buildChain hashFn tokenMint events).set i r')).valid = false ∧
      ∃ j k,
        (verifyChain hashFn ((buildChain hashFn tokenMint events).set i r')).invalidAt = some j ∧
        (sortBySequence ((buildChain hashFn tokenMint events).set i r'))[k]? = some r' ∧
        j ≤ k := by
  have hwc := buildChainFrom_wellChained hashFn tokenMint events initialState
  constructor
  · exact verifyChain_ok hashFn _ GENESIS_HASH 0 hwc (Or.inl rfl)
  · intro i r' hi hm
    have hgood : (buildChain hashFn tokenMint events)[i].hash =
        generateHash hashFn (buildChain hashFn tokenMint events)[i] :=
      WellChained_hash_ok hashFn _ _ _ hwc _ (List.getElem_mem hi)
    have hbad := verifyRecordHash_of_mutated hashFn hinj _ r' hgood hm
    have hlen : i < ((buildChain hashFn tokenMint events).set i r').length := by
      simpa using hi
    have hmem : r' ∈ (buildChain hashFn tokenMint events).set i r' := by
      apply List.mem_iff_getElem?.mpr
      exact ⟨i, by rw [List.getElem?_eq_getElem hlen, List.getElem_set_self hlen]⟩
    exact verifyChain_fail hashFn _ r' hmem hbad

/-- Concrete event for the C1 witness. -/
def wEvent : EventInput :=
  { eventType := .collect, vault := .BC, amountLamports := 5, signature := "sig1",
    tokenSymbol := none, slot := none, timestamp := 0 }

/-- Concrete one-append chain for the C1 witness. -/
def wChain : List PoHRecord := buildChain id "MINT" [wEvent]

theorem poh_chain_integrity_witness :
    verifyChain id wChain = ⟨true, none, none⟩ ∧
    (verifyChain id (wChain.set 0 { wChain.getD 0 default with sequence := 7 })).valid
      = false := by
  have h := poh_chain_integrity id Function.injective_id "MINT" [wEvent]
  refine ⟨h.1, ?_⟩
  have hi : 0 < wChain.length := by decide
  have hseq : wChain[0].sequence = 1 := rfl
  have hm : MutatesOne { wChain.getD 0 default with sequence := 7 } wChain[0] := by
    right; right
    exact ⟨7, by rw [hseq]; decide, rfl⟩
  exact (h.2 0 _ hi hm).1

/-- C9: `verifyChain` checks genesis linkage only for a chain whose least
sequence is exactly 1.  Any internally hash-consistent, link-consistent,
sequence-contiguous record list starting at sequence `s + 1` with `s > 0`
verifies as `valid: true` — whatever its first record's `prevHash` is, i.e.
a chain missing its prefix still verifies. -/
theorem verifyChain_accepts_suffix_chain (hashFn : String → String) (ph : String)
    (s : Int) (records : List PoHRecord) (hwc : WellChained hashFn ph s records)
    (hs : 0 < s) : verifyChain hashFn records = ⟨true, none, none⟩ :=
  verifyChain_ok hashFn records ph s hwc (Or.inr (by omega))

/-- Concrete record data for the C9 witness (sequence 2, arbitrary
non-genesis `prevHash`). -/
def wSuffixRec0 : PoHRecord :=
  { sequence := 2, hash := "", prevHash := "deadbeef", timestamp := 3,
    slot := some 4, eventType := .burn, vault := .AMM, tokenMint := "M",
    tokenSymbol := some "SYM", amountLamports := 123, signature := "s2" }

/-- The C9 witness record with a correct digest (for `hashFn = id`). -/
def wSuffixRec : PoHRecord := { wSuffixRec0 with hash := serializeRecord wSuffixRec0 }

theorem verifyChain_accepts_suffix_chain_witness :
    verifyChain id [wSuffixRec] = ⟨true, none, none⟩ :=
  verifyChain_accepts_suffix_chain id "deadbeef" 1 [wSuffixRec]
    ⟨rfl, rfl, rfl, trivial⟩ (by norm_num)

/-- Two records agreeing on every field `verifyChain` inspects (`sequence`,
`hash`, `prevHash` and the serialized digest input); records differing only
in `tokenSymbol` are related. -/
def RecordSim (a b : PoHRecord) : Prop :=
  a.sequence = b.sequence ∧ a.hash = b.hash ∧ a.prevHash = b.prevHash ∧
    serializeRecord a = serializeRecord b

theorem recordSim_rfl (a : PoHRecord) : RecordSim a a := ⟨rfl, rfl, rfl, rfl⟩

theorem verifyRecordHash_congr (hashFn : String → String) {a b : PoHRecord}
    (h : RecordSim a b) : verifyRecordHash hashFn a = verifyRecordHash hashFn b := by
  unfold verifyRecordHash generateHash
  rw [h.2.1, h.2.2.2]

/-- Similarity on the optional previous record carried by the scan. -/
def OptRecordSim : Option PoHRecord → Option PoHRecord → Prop
  | none, none => True
  | some a, some b => a.sequence = b.sequence ∧ a.hash = b.hash
  | _, _ => False

theorem verifyLoop_congr (hashFn : String → String) :
    ∀ {l₁ l₂ : List PoHRecord}, List.Forall₂ RecordSim l₁ l₂ →
      ∀ (p₁ p₂ : Option PoHRecord) (i : Nat), OptRecordSim p₁ p₂ →
        verifyLoop hashFn p₁ i l₁ = verifyLoop hashFn p₂ i l₂ := by
  intro l₁ l₂ hf
  induction hf with
  | nil => intro p₁ p₂ i _; cases p₁ <;> cases p₂ <;> rfl
  | cons hr ht ih =>
    rename_i r₁ r₂ t₁ t₂
    intro p₁ p₂ i hp
    by_cases hvr : verifyRecordHash hashFn r₁ = false
    · have hvr₂ : verifyRecordHash hashFn r₂ = false := by
        rw [← verifyRecordHash_congr hashFn hr]; exact hvr
      rw [verifyLoop_cons_hashfail hashFn p₁ i r₁ t₁ hvr,
        verifyLoop_cons_hashfail hashFn p₂ i r₂ t₂ hvr₂, hr.1]
    · have hvr₂ : ¬verifyRecordHash hashFn r₂ = false := by
        rw [← verifyRecordHash_congr hashFn hr]; exact hvr
      cases p₁ with
      | none =>
        cases p₂ with
        | none =>
          rw [verifyLoop_cons_none hashFn i r₁ t₁ hvr,
            verifyLoop_cons_none hashFn i r₂ t₂ hvr₂]
          exact ih (some r₁) (some r₂) (i + 1) ⟨hr.1, hr.2.1⟩
        | some _ => exact absurd hp (by simp [OptRecordSim])
      | some q₁ =>
        cases p₂ with
        | none => exact absurd hp (by simp [OptRecordSim])
        | some q₂ =>
          obtain ⟨hq1, hq2⟩ := hp
          rw [verifyLoop_cons_some hashFn i r₁ t₁ q₁ hvr,
            verifyLoop_cons_some hashFn i r₂ t₂ q₂ hvr₂]
          have hlink₂ : (r₂.prevHash ≠ q₂.hash) ↔ (r₁.prevHash ≠ q₁.hash) := by
            rw [hr.2.2.1, hq2]
          have hseq₂ : (r₂.sequence ≠ q₂.sequence + 1) ↔ (r₁.sequence ≠ q₁.sequence + 1) := by
            rw [hr.1, hq1]
          by_cases hlink : r₁.prevHash ≠ q₁.hash
          · rw [if_pos hlink, if_pos (hlink₂.mpr hlink), hr.1]
          · rw [if_neg hlink, if_neg (fun h => hlink (hlink₂.mp h))]
            by_cases hseq : r₁.sequence ≠ q₁.sequence + 1
            · rw [if_pos hseq, if_pos (hseq₂.mpr hseq), hr.1]
            · rw [if_neg hseq, if_neg (fun h => hseq (hseq₂.mp h))]
              exact ih (some r₁) (some r₂) (i + 1) ⟨hr.1, hr.2.1⟩

theorem list_set_self {α : Type _} : ∀ (l : List α) (i : Nat), i < l.length →
    ∀ (a : α), l[i]? = some a → l.set i a = l
  | x :: t, 0, _, a, ha => by simp at ha; rw [ha]; rfl
  | x :: t, i + 1, h, a, ha => by
    have : t.set i a = t := list_set_self t i (by simpa using h) a (by simpa using ha)
    simp [List.set, this]

theorem forall₂_set_sim : ∀ (l : List PoHRecord) (i : Nat) (r' : PoHRecord)
    (h : i < l.length), RecordSim l[i] r' → List.Forall₂ RecordSim l (l.set i r')
  | x :: t, 0, r', _, hsim =>
    List.Forall₂.cons hsim (List.forall₂_same.mpr fun a _ => recordSim_rfl a)
  | x :: t, i + 1, r', h, hsim => by
    have ih := forall₂_set_sim t i r' (by simpa using h) (by simpa using hsim)
    exact List.Forall₂.cons (recordSim_rfl x) ih

/-- Changing a record's `tokenSymbol` preserves the strict sequence order. -/
theorem pairwise_set_symbol (l : List PoHRecord) (i : Nat) (h : i < l.length)
    (sym : Option String)
    (hl : l.Pairwise fun a b => a.sequence < b.sequence) :
    (l.set i { l[i] with tokenSymbol := sym }).Pairwise
      fun a b => a.sequence < b.sequence := by
  have hmap : (l.set i { l[i] with tokenSymbol := sym }).map (fun r => r.sequence)
      = l.map fun r => r.sequence := by
    rw [List.map_set]
    apply list_set_self
    · simpa using h
    · simp [List.getElem?_eq_getElem h]
  rw [← List.pairwise_map] at hl ⊢
  rw [hmap]
  exact hl

theorem recordSim_symm {a b : PoHRecord} (h : RecordSim a b) : RecordSim b a :=
  ⟨h.1.symm, h.2.1.symm, h.2.2.1.symm, h.2.2.2.symm⟩

theorem forall₂_recordSim_symm : ∀ {l₁ l₂ : List PoHRecord},
    List.Forall₂ RecordSim l₁ l₂ → List.Forall₂ RecordSim l₂ l₁ := by
  intro l₁ l₂ h
  induction h with
  | nil => exact List.Forall₂.nil
  | cons hr ht ih => exact List.Forall₂.cons (recordSim_symm hr) ih

theorem verifyChain_congr (hashFn : String → String) {l₁ l₂ : List PoHRecord}
    (hf : List.Forall₂ RecordSim l₁ l₂)
    (h₁ : sortBySequence l₁ = l₁) (h₂ : sortBySequence l₂ = l₂) :
    verifyChain hashFn l₁ = verifyChain hashFn l₂ := by
  unfold verifyChain
  rw [h₁, h₂]
  cases hf with
  | nil => rfl
  | cons hr ht =>
    rename_i a b t₁ t₂
    show (if a.prevHash ≠ GENESIS_HASH ∧ a.sequence = 1 then
        (⟨false, some 0, some "First record does not link to genesis hash"⟩ : VerifyResult)
      else verifyLoop hashFn none 0 (a :: t₁)) =
      (if b.prevHash ≠ GENESIS_HASH ∧ b.sequence = 1 then
        ⟨false, some 0, some "First record does not link to genesis hash"⟩
      else verifyLoop hashFn none 0 (b :: t₂))
    have hcond : (a.prevHash ≠ GENESIS_HASH ∧ a.sequence = 1)
        ↔ (b.prevHash ≠ GENESIS_HASH ∧ b.sequence = 1) := by
      rw [hr.1, hr.2.2.1]
    by_cases hgen : a.prevHash ≠ GENESIS_HASH ∧ a.sequence = 1
    · rw [if_pos hgen, if_pos (hcond.mp hgen)]
    · rw [if_neg hgen, if_neg (fun hb => hgen (hcond.mpr hb))]
      exact verifyLoop_congr hashFn (List.Forall₂.cons hr ht) none none 0 trivial

/-- C10: the record digest omits `tokenSymbol`.  `generateHash` and
`verifyRecordHash` are invariant under any change of `tokenSymbol`, and for
any stored chain (strictly increasing sequences) replacing one record's
`tokenSymbol` leaves the entire `verifyChain` result unchanged — tampering
with `tokenSymbol` is never detected. -/
theorem tokenSymbol_outside_digest (hashFn : String → String) (r : PoHRecord)
    (s₁ s₂ : Option String) (l : List PoHRecord) (i : Nat) (sym : Option String)
    (hl : l.Pairwise fun a b => a.sequence < b.sequence) (hi : i < l.length) :
    generateHash hashFn { r with tokenSymbol := s₁ }
      = generateHash hashFn { r with tokenSymbol := s₂ } ∧
    verifyRecordHash hashFn { r with tokenSymbol := s₁ }
      = verifyRecordHash hashFn { r with tokenSymbol := s₂ } ∧
    verifyChain hashFn (l.set i { l[i] with tokenSymbol := sym })
      = verifyChain hashFn l := by
  refine ⟨rfl, rfl, ?_⟩
  have hsim : RecordSim l[i] { l[i] with tokenSymbol := sym } := ⟨rfl, rfl, rfl, rfl⟩
  have hf : List.Forall₂ RecordSim l (l.set i { l[i] with tokenSymbol := sym }) :=
    forall₂_set_sim l i _ hi hsim
  have hs₁ : sortBySequence l = l := by
    apply List.mergeSort_of_sorted
    exact hl.imp fun hab => by simpa using le_of_lt hab
  have hpw₂ := pairwise_set_symbol l i hi sym hl
  have hs₂ : sortBySequence (l.set i { l[i] with tokenSymbol := sym })
      = l.set i { l[i] with tokenSymbol := sym } := by
    apply List.mergeSort_of_sorted
    exact hpw₂.imp fun hab => by simpa using le_of_lt hab
  exact verifyChain_congr hashFn (forall₂_recordSim_symm hf) hs₂ hs₁

/-- First record of the C10 witness chain. -/
def wSymRec1 : PoHRecord :=
  { sequence := 1, hash := "h1", prevHash := "p1", timestamp := 0, slot := none,
    eventType := .collect, vault := .BC, tokenMint := "M",
    tokenSymbol := some "A", amountLamports := 1, signature := "s1" }

/-- Second record of the C10 witness chain. -/
def wSymRec2 : PoHRecord :=
  { sequence := 2, hash := "h2", prevHash := "p2", timestamp := 5, slot := some 9,
    eventType := .withdraw, vault := .AMM, tokenMint := "M",
    tokenSymbol := some "B", amountLamports := 4, signature := "s2" }

theorem tokenSymbol_outside_digest_witness :
    generateHash id { wSymRec1 with tokenSymbol := some "X" }
      = generateHash id { wSymRec1 with tokenSymbol := some "Y" } ∧
    verifyRecordHash id { wSymRec1 with tokenSymbol := some "X" }
      = verifyRecordHash id { wSymRec1 with tokenSymbol := some "Y" } ∧
    verifyChain id
        ([wSymRec1, wSymRec2].set 1
          { [wSymRec1, wSymRec2][1] with tokenSymbol := some "Z" })
      = verifyChain id [wSymRec1, wSymRec2] :=
  tokenSymbol_outside_digest id wSymRec1 (some "X") (some "Y")
    [wSymRec1, wSymRec2] 1 (some "Z") (by decide) (by decide)

/-! ## Chain export and import (`exportChainToJSON` / `importChainFromJSON`)

The source serializes the record list with `JSON.stringify` after converting
`amountLamports` to its decimal string and `timestamp` to ISO text, and
`importChainFromJSON` applies `JSON.parse` and converts back.
`JSON.stringify`/`JSON.parse` are host-library primitives and exact inverses
on this data, so the embedding works with the structured JSON value (the
array of records-with-string-fields) that the text stands for. -/

/-- Shape of one exported record in the JSON file format: `amountLamports`
as a base-10 digit string, `timestamp` as ISO text, all other fields as in
`PoHRecord`. -/
structure PoHRecordJSON where
  sequence : Int
  hash : String
  prevHash : String
  timestamp : String
  slot : Option Int
  eventType : EventType
  vault : VaultLabel
  tokenMint : String
  tokenSymbol : Option String
  amountLamports : String
  signature : String
deriving DecidableEq, Repr

/-- Function `exportChainToJSON`: `records.map(r => ({...r, amountLamports:
r.amountLamports.toString(), timestamp: r.timestamp.toISOString()}))`. -/
def exportChainToJSON (records : List PoHRecord) : List PoHRecordJSON :=
  records.map fun r =>
    { sequence := r.sequence
      hash := r.hash
      prevHash := r.prevHash
      timestamp := dateToISO r.timestamp
      slot := r.slot
      eventType := r.eventType
      vault := r.vault
      tokenMint := r.tokenMint
      tokenSymbol := r.tokenSymbol
      amountLamports := intToDecimal r.amountLamports
      signature := r.signature }

/-- Function `importChainFromJSON`: parse back, with `new Date(r.timestamp)` and
`BigInt(r.amountLamports)` (both host primitives, inverse to the renderings
on the canonical strings the export produces). -/
def importChainFromJSON (data : List PoHRecordJSON) : List PoHRecord :=
  data.map fun r =>
    { sequence := r.sequence
      hash := r.hash
      prevHash := r.prevHash
      timestamp := parseISODate r.timestamp
      slot := r.slot
      eventType := r.eventType
      vault := r.vault
      tokenMint := r.tokenMint
      tokenSymbol := r.tokenSymbol
      amountLamports := decimalToInt r.amountLamports
      signature := r.signature }

/-- C6: for every non-empty record list, import is the exact inverse of
export — no loss of amount or timestamp precision. -/
theorem import_export_roundtrip (records : List PoHRecord) (_hne : records ≠ []) :
    importChainFromJSON (exportChainToJSON records) = records := by
  unfold importChainFromJSON exportChainToJSON
  rw [List.map_map]
  conv_rhs => rw [← List.map_id records]
  apply List.map_congr_left
  intro r _
  dsimp only [Function.comp_apply, id_eq, parseISODate, dateToISO]
  rw [decimalToInt_intToDecimal, decimalToInt_intToDecimal]

theorem import_export_roundtrip_witness :
    importChainFromJSON (exportChainToJSON [wSymRec1, wSymRec2])
      = [wSymRec1, wSymRec2] :=
  import_export_roundtrip [wSymRec1, wSymRec2] (by decide)

/-! ## Transaction classifier (`src/lib/classifier.ts`)

The classifier consumes Helius `EnrichedTransaction` values.  A JavaScript
runtime value reaching `safeBigInt` is embedded as `JSVal`; a finite JS
`number` is embedded as the exact rational it denotes (every binary64 float
is a rational, and `Math.floor` / `BigInt(integralFloat)` are exact on it). -/

/-- A JavaScript value as seen by `safeBigInt`. -/
inductive JSVal where
  /-- A finite `number` (binary64), as the exact rational it denotes. -/
  | jsNum (q : ℚ)
  /-- A non-finite `number`: `NaN` or `±Infinity`. -/
  | jsNaN
  /-- A string. -/
  | jsStr (s : String)
  /-- A `bigint`. -/
  | jsBig (n : Int)
  /-- `null` or `undefined`. -/
  | jsNull
  /-- Any other runtime value (boolean, object, ...). -/
  | jsOther
deriving DecidableEq, Repr

/-- The test `/^\d+$/.test(s)`: non-empty and every character an ASCII digit
(codepoints 48–57). -/
def isDigitString (s : String) : Bool :=
  !s.data.isEmpty && s.data.all fun c => 48 ≤ c.toNat && c.toNat ≤ 57

/-- Function `safeBigInt`: bigints pass through; finite numbers via `Math.floor`
(rounding toward −∞, exact on binary64); strings matching `/^\d+$/` via
`BigInt(s)` (decimal); everything else — and the `try/catch` — yields 0. -/
def safeBigInt : JSVal → Int
  | .jsNull => 0
  | .jsBig n => n
  | .jsNum q => ⌊q⌋
  | .jsNaN => 0
  | .jsStr s => if isDigitString s then (decimalToNat s : Int) else 0
  | .jsOther => 0

/-- One entry of `tx.nativeTransfers`. -/
structure NativeTransfer where
  fromUserAccount : String
  toUserAccount : String
  amount : JSVal
deriving DecidableEq, Repr

/-- One entry of `tx.tokenTransfers`.  `toUserAccount` is `""` when absent
(the source tests it against `""` and for falsiness); `toTokenAccount` is
optional. -/
structure TokenTransfer where
  mint : String
  fromUserAccount : String
  toUserAccount : String
  tokenAmount : JSVal
  toTokenAccount : Option String
deriving DecidableEq, Repr

/-- An inner instruction as inspected by `findBurnInTransaction`
(only its optional `type` tag matters). -/
structure InnerInstructionInfo where
  type : Option String
deriving DecidableEq, Repr

/-- One entry of `tx.instructions`. -/
structure Instruction where
  programId : String
  innerInstructions : Option (List InnerInstructionInfo)
deriving DecidableEq, Repr

/-- One entry of `tx.accountData` (only the optional `account` string is
inspected, via `a.account?.includes(...)`). -/
structure AccountData where
  account : Option String
deriving DecidableEq, Repr

/-- Annotation `tx.events.burn`, when present. -/
structure BurnEventInfo where
  amount : JSVal
deriving DecidableEq, Repr

/-- Field `tx.events` (`tx.events || {}` in the source; only `burn` is read). -/
structure TxEvents where
  burn : Option BurnEventInfo
deriving DecidableEq, Repr

/-- A parsed (Helius-enriched) transaction, restricted to the fields the
classifier reads.  `transactionError` is the truthiness of the error marker;
`timestamp` is `Option` (the source applies `?? 0`). -/
structure ParsedTransaction where
  signature : String
  timestamp : Option Int
  transactionError : Bool
  description : Option String
  accountData : List AccountData
  nativeTransfers : List NativeTransfer
  tokenTransfers : List TokenTransfer
  instructions : List Instruction
  events : TxEvents
deriving DecidableEq, Repr

def JUPITER_V6_PROGRAM_ID : String := "JUP6LkbZbjS1jKKwapdHNy74zcZ3tLUZoi5QNyVTaV4"

def RAYDIUM_AMM_PROGRAM_ID : String := "675kPX9MHTjS2zt1qfr1NYHuzeLXfQM9H24wFSUt1Mp8"

def TOKEN_PROGRAM_ID : String := "TokenkegQfeZyiNwAJbNbGKPFXCWuBvf9Ss623VQ5DA"

def BURN_ADDRESS : String := "1nc1nerator11111111111111111111111111111111"

/-- The test `s.includes(pat)`: substring containment. -/
def containsSubstring (s pat : String) : Bool :=
  s.data.tails.any fun t => pat.data.isPrefixOf t

/-- Lower-casing for `description?.toLowerCase() || ""`.  ASCII lower-casing, by structural
recursion over the characters (the library `String.toLower` is extensionally
the same but does not evaluate in the kernel). -/
def lowerString (s : String) : String :=
  String.mk (s.data.map fun c =>
    if 65 ≤ c.toNat ∧ c.toNat ≤ 90 then Char.ofNat (c.toNat + 32) else c)

/-- Function `hasSwapInstruction`: Jupiter/Raydium in `accountData` (substring test),
or as an instruction `programId`, or swap-router keywords in the lowercased
description. -/
def hasSwapInstruction (tx : ParsedTransaction) : Bool :=
  let accountData := tx.accountData
  let instructions := tx.instructions
  let hasJupiter := accountData.any fun a =>
    (a.account.map fun s => containsSubstring s JUPITER_V6_PROGRAM_ID).getD false
  let hasRaydium := accountData.any fun a =>
    (a.account.map fun s => containsSubstring s RAYDIUM_AMM_PROGRAM_ID).getD false
  if hasJupiter || hasRaydium then true
  else if instructions.any fun ix =>
      ix.programId == JUPITER_V6_PROGRAM_ID || ix.programId == RAYDIUM_AMM_PROGRAM_ID
    then true
  else
    let description := (tx.description.map lowerString).getD ""
    containsSubstring description "swap" || containsSubstring description "jupiter" ||
      containsSubstring description "raydium"

/-- Burn evidence found by `findBurnInTransaction`. -/
structure BurnInfo where
  amount : Int
deriving DecidableEq, Repr

/-- Function `findBurnInTransaction`: (1) a token-program instruction whose inner
instructions contain a `burn`, with the amount taken from a mint transfer
with falsy `toUserAccount` (the loop's transfer lookup does not depend on
the instruction, so the loop succeeds iff such an instruction and such a
transfer both exist); (2) else a transfer of the mint to the incinerator
address or with `toTokenAccount === ""`; (3) else the explicit
`events.burn` annotation. -/
def findBurnInTransaction (tx : ParsedTransaction) (tokenMint : String) :
    Option BurnInfo :=
  let tokenTransfers := tx.tokenTransfers
  let instructions := tx.instructions
  let hasBurnIx := instructions.any fun ix =>
    ix.programId == TOKEN_PROGRAM_ID &&
      ((ix.innerInstructions.map fun inner =>
        inner.any fun x => x.type == some "burn").getD false)
  match (if hasBurnIx then
      tokenTransfers.find? fun t => t.mint == tokenMint && t.toUserAccount == ""
    else none) with
  | some burnTransfer => some ⟨safeBigInt burnTransfer.tokenAmount⟩
  | none =>
    match tokenTransfers.find? fun t =>
        t.mint == tokenMint &&
          (t.toUserAccount == BURN_ADDRESS || t.toTokenAccount == some "") with
    | some toBurnAddress => some ⟨safeBigInt toBurnAddress.tokenAmount⟩
    | none =>
      match tx.events.burn with
      | some b => some ⟨safeBigInt b.amount⟩
      | none => none

/-- The collect-transfer predicate: lands on the vault, not from the
creator wallet. -/
def isCollectTransfer (creatorVault creatorWallet : String)
    (t : NativeTransfer) : Bool :=
  t.toUserAccount == creatorVault && t.fromUserAccount != creatorWallet

/-- The vault-outflow predicate: native funds leaving the vault. -/
def isVaultOutflow (creatorVault : String) (t : NativeTransfer) : Bool :=
  t.fromUserAccount == creatorVault

/-- A classified fee event (`ClassifiedEvent`); `blockTime` is the epoch-ms
value of `new Date((tx.timestamp ?? 0) * 1000)`. -/
structure ClassifiedEvent where
  type : EventType
  amountLamports : Int
  signature : String
  blockTime : Int
  burnedTokenMint : Option String
  burnedTokenAmount : Option Int
deriving DecidableEq, Repr

/-- Function `classifyTransaction`: errored transactions yield no event; first
matching collect transfer wins; otherwise the first vault outflow is
classified burn (swap pattern + burn evidence), withdraw (to the creator
wallet), burn (swap pattern + mint transfer to a burn destination), or
withdraw by default; no outflow yields no event. -/
def classifyTransaction (tx : ParsedTransaction)
    (creatorVault creatorWallet tokenMint : String) : Option ClassifiedEvent :=
  if tx.transactionError then none
  else
    let signature := tx.signature
    let blockTime := (tx.timestamp.getD 0) * 1000
    let nativeTransfers := tx.nativeTransfers
    let tokenTransfers := tx.tokenTransfers
    match nativeTransfers.find? (isCollectTransfer creatorVault creatorWallet) with
    | some collectTransfer =>
      some { type := .collect, amountLamports := safeBigInt collectTransfer.amount,
             signature := signature, blockTime := blockTime,
             burnedTokenMint := none, burnedTokenAmount := none }
    | none =>
      match nativeTransfers.find? (isVaultOutflow creatorVault) with
      | none => none
      | some vaultOutflow =>
        let outflowAmount := safeBigInt vaultOutflow.amount
        let hasSwap := hasSwapInstruction tx
        match (if hasSwap then findBurnInTransaction tx tokenMint else none) with
        | some burnInfo =>
          some { type := .burn, amountLamports := outflowAmount,
                 signature := signature, blockTime := blockTime,
                 burnedTokenMint := some tokenMint,
                 burnedTokenAmount := some burnInfo.amount }
        | none =>
          if vaultOutflow.toUserAccount == creatorWallet then
            some { type := .withdraw, amountLamports := outflowAmount,
                   signature := signature, blockTime := blockTime,
                   burnedTokenMint := none, burnedTokenAmount := none }
          else if hasSwap then
            match tokenTransfers.find? fun t =>
                t.mint == tokenMint &&
                  (t.toUserAccount == BURN_ADDRESS || t.toUserAccount == "" ||
                    t.toTokenAccount == some "") with
            | some tokenBurn =>
              some { type := .burn, amountLamports := outflowAmount,
                     signature := signature, blockTime := blockTime,
                     burnedTokenMint := some tokenMint,
                     burnedTokenAmount := some (safeBigInt tokenBurn.tokenAmount) }
            | none =>
              some { type := .withdraw, amountLamports := outflowAmount,
                     signature := signature, blockTime := blockTime,
                     burnedTokenMint := none, burnedTokenAmount := none }
          else
            some { type := .withdraw, amountLamports := outflowAmount,
                   signature := signature, blockTime := blockTime,
                   burnedTokenMint := none, burnedTokenAmount := none }

/-- C2: a native transfer landing on the vault from anywhere other than the
creator wallet classifies as `collect` with that transfer's magnitude, with
priority over every outflow rule; and a transaction whose only
vault-relevant native transfer is creator-wallet → vault produces no
event. -/
theorem classify_collect_priority (tx : ParsedTransaction)
    (creatorVault creatorWallet tokenMint : String)
    (hok : tx.transactionError = false) :
    (∀ (t : NativeTransfer) (n : Nat),
      tx.nativeTransfers.find? (isCollectTransfer creatorVault creatorWallet) = some t →
      t.amount = JSVal.jsNum n →
      classifyTransaction tx creatorVault creatorWallet tokenMint =
        some { type := .collect, amountLamports := n, signature := tx.signature,
               blockTime := tx.timestamp.getD 0 * 1000,
               burnedTokenMint := none, burnedTokenAmount := none }) ∧
    ((∀ t ∈ tx.nativeTransfers,
        (t.toUserAccount = creatorVault → t.fromUserAccount = creatorWallet) ∧
        t.fromUserAccount ≠ creatorVault) →
      classifyTransaction tx creatorVault creatorWallet tokenMint = none) := by
  constructor
  · intro t n hfind hamt
    unfold classifyTransaction
    simp only [hok, Bool.false_eq_true, if_false, hfind]
    rw [hamt]
    simp [safeBigInt]
  · intro hall
    have h1 : tx.nativeTransfers.find? (isCollectTransfer creatorVault creatorWallet)
        = none := by
      rw [List.find?_eq_none]
      intro t ht hpred
      simp only [isCollectTransfer, Bool.and_eq_true, beq_iff_eq, bne_iff_ne] at hpred
      exact hpred.2 ((hall t ht).1 hpred.1)
    have h2 : tx.nativeTransfers.find? (isVaultOutflow creatorVault) = none := by
      rw [List.find?_eq_none]
      intro t ht hpred
      simp only [isVaultOutflow, beq_iff_eq] at hpred
      exact (hall t ht).2 hpred
    unfold classifyTransaction
    simp only [hok, Bool.false_eq_true, if_false, h1, h2]

/-- Transaction for the C2 witness, part 1: an external payer funds the
vault. -/
def wCollectTx : ParsedTransaction :=
  { signature := "sigC", timestamp := some 3, transactionError := false,
    description := none, accountData := [],
    nativeTransfers := [⟨"payer", "VAULT", .jsNum 5⟩],
    tokenTransfers := [], instructions := [], events := ⟨none⟩ }

/-- Transaction for the C2 witness, part 2: the creator funds its own
vault. -/
def wFundTx : ParsedTransaction :=
  { signature := "sigF", timestamp := some 3, transactionError := false,
    description := none, accountData := [],
    nativeTransfers := [⟨"WALLET", "VAULT", .jsNum 5⟩],
    tokenTransfers := [], instructions := [], events := ⟨none⟩ }

theorem classify_collect_priority_witness :
    classifyTransaction wCollectTx "VAULT" "WALLET" "MINT" =
      some { type := .collect, amountLamports := 5, signature := "sigC",
             blockTime := 3000, burnedTokenMint := none, burnedTokenAmount := none } ∧
    classifyTransaction wFundTx "VAULT" "WALLET" "MINT" = none := by
  constructor
  · exact (classify_collect_priority wCollectTx "VAULT" "WALLET" "MINT" rfl).1
      ⟨"payer", "VAULT", .jsNum 5⟩ 5 rfl (by norm_num)
  · refine (classify_collect_priority wFundTx "VAULT" "WALLET" "MINT" rfl).2 ?_
    intro t ht
    simp only [wFundTx, List.mem_singleton] at ht
    subst ht
    exact ⟨fun _ => rfl, by decide⟩

/-- C3: a non-collect vault outflow in a transaction with a recognized swap
pattern and burn evidence classifies as `burn`, with the outflow's
magnitude, the tracked mint, and the burned amount from the matched
evidence. -/
theorem classify_burn_on_swap_and_evidence (tx : ParsedTransaction)
    (creatorVault creatorWallet tokenMint : String)
    (hok : tx.transactionError = false)
    (hnc : tx.nativeTransfers.find? (isCollectTransfer creatorVault creatorWallet) = none)
    (vo : NativeTransfer)
    (hvo : tx.nativeTransfers.find? (isVaultOutflow creatorVault) = some vo)
    (hswap : hasSwapInstruction tx = true)
    (bi : BurnInfo) (hburn : findBurnInTransaction tx tokenMint = some bi)
    (n : Nat) (hamt : vo.amount = JSVal.jsNum n) :
    classifyTransaction tx creatorVault creatorWallet tokenMint =
      some { type := .burn, amountLamports := n, signature := tx.signature,
             blockTime := tx.timestamp.getD 0 * 1000,
             burnedTokenMint := some tokenMint,
             burnedTokenAmount := some bi.amount } := by
  unfold classifyTransaction
  simp only [hok, Bool.false_eq_true, if_false, hnc, hvo, hswap, if_pos, hburn]
  rw [hamt]
  simp [safeBigInt]

/-- Transaction for the C3 witness: vault outflow + Jupiter instruction +
explicit burn-amount annotation. -/
def wBurnTx : ParsedTransaction :=
  { signature := "sigB", timestamp := some 3, transactionError := false,
    description := none, accountData := [],
    nativeTransfers := [⟨"VAULT", "router", .jsNum 9⟩],
    tokenTransfers := [],
    instructions := [⟨JUPITER_V6_PROGRAM_ID, none⟩],
    events := ⟨some ⟨.jsBig 50000⟩⟩ }

theorem classify_burn_on_swap_and_evidence_witness :
    classifyTransaction wBurnTx "VAULT" "WALLET" "MINT" =
      some { type := .burn, amountLamports := 9, signature := "sigB",
             blockTime := 3000, burnedTokenMint := some "MINT",
             burnedTokenAmount := some 50000 } :=
  classify_burn_on_swap_and_evidence wBurnTx "VAULT" "WALLET" "MINT" rfl rfl
    ⟨"VAULT", "router", .jsNum 9⟩ rfl rfl ⟨50000⟩ rfl 9 (by norm_num)

/-- C4: a non-collect vault outflow with no swap pattern classifies as
`withdraw` with the outflow's magnitude — whether or not its destination is
the creator wallet. -/
theorem classify_withdraw_default (tx : ParsedTransaction)
    (creatorVault creatorWallet tokenMint : String)
    (hok : tx.transactionError = false)
    (hnc : tx.nativeTransfers.find? (isCollectTransfer creatorVault creatorWallet) = none)
    (vo : NativeTransfer)
    (hvo : tx.nativeTransfers.find? (isVaultOutflow creatorVault) = some vo)
    (hswap : hasSwapInstruction tx = false)
    (n : Nat) (hamt : vo.amount = JSVal.jsNum n) :
    classifyTransaction tx creatorVault creatorWallet tokenMint =
      some { type := .withdraw, amountLamports := n, signature := tx.signature,
             blockTime := tx.timestamp.getD 0 * 1000,
             burnedTokenMint := none, burnedTokenAmount := none } := by
  unfold classifyTransaction
  simp only [hok, Bool.false_eq_true, if_false, hnc, hvo, hswap]
  rw [hamt]
  by_cases hdest : vo.toUserAccount == creatorWallet
  · simp [hdest, safeBigInt]
  · simp [hdest, safeBigInt]

/-- Transaction for the C4 witness, outflow to the creator wallet. -/
def wWithdrawTx1 : ParsedTransaction :=
  { signature := "sigW", timestamp := some 3, transactionError := false,
    description := none, accountData := [],
    nativeTransfers := [⟨"VAULT", "WALLET", .jsNum 7⟩],
    tokenTransfers := [], instructions := [], events := ⟨none⟩ }

/-- Transaction for the C4 witness, outflow to an unknown address. -/
def wWithdrawTx2 : ParsedTransaction :=
  { signature := "sigU", timestamp := some 3, transactionError := false,
    description := none, accountData := [],
    nativeTransfers := [⟨"VAULT", "somewhere", .jsNum 7⟩],
    tokenTransfers := [], instructions := [], events := ⟨none⟩ }

theorem classify_withdraw_default_witness :
    classifyTransaction wWithdrawTx1 "VAULT" "WALLET" "MINT" =
      some { type := .withdraw, amountLamports := 7, signature := "sigW",
             blockTime := 3000, burnedTokenMint := none, burnedTokenAmount := none } ∧
    classifyTransaction wWithdrawTx2 "VAULT" "WALLET" "MINT" =
      some { type := .withdraw, amountLamports := 7, signature := "sigU",
             blockTime := 3000, burnedTokenMint := none, burnedTokenAmount := none } :=
  ⟨classify_withdraw_default wWithdrawTx1 "VAULT" "WALLET" "MINT" rfl rfl
      ⟨"VAULT", "WALLET", .jsNum 7⟩ rfl rfl 7 (by norm_num),
    classify_withdraw_default wWithdrawTx2 "VAULT" "WALLET" "MINT" rfl rfl
      ⟨"VAULT", "somewhere", .jsNum 7⟩ rfl rfl 7 (by norm_num)⟩

theorem natToDecimal_ne_empty (n : Nat) : (natToDecimal n).data ≠ [] := by
  unfold natToDecimal
  by_cases hn : n = 0
  · simp only [hn, if_true]
    decide
  · simp only [hn, if_false]
    show (natToDigitsRev (n + 1) n).reverse ≠ []
    unfold natToDigitsRev
    simp [hn]

theorem isDigitString_natToDecimal (n : Nat) :
    isDigitString (natToDecimal n) = true := by
  unfold isDigitString
  rw [Bool.and_eq_true]
  constructor
  · simp [List.isEmpty_iff, natToDecimal_ne_empty n]
  · rw [List.all_eq_true]
    intro c hc
    have h := mem_natToDecimal_data n c hc
    simp only [Bool.and_eq_true, decide_eq_true_eq]
    exact h

/-- Every event the classifier produces takes its `amountLamports` from the
associated native transfer: the matched collect transfer when the collect
rule fired, and otherwise the first vault outflow. -/
theorem classify_amount_of_transfer (tx : ParsedTransaction)
    (vault wallet mint : String) (ev : ClassifiedEvent)
    (heq : classifyTransaction tx vault wallet mint = some ev) :
    ∃ t ∈ tx.nativeTransfers,
      (tx.nativeTransfers.find? (isCollectTransfer vault wallet) = some t ∨
        tx.nativeTransfers.find? (isVaultOutflow vault) = some t) ∧
      ev.amountLamports = safeBigInt t.amount := by
  by_cases herr : tx.transactionError = true
  · unfold classifyTransaction at heq
    rw [if_pos herr] at heq
    exact absurd heq (by simp)
  · have herr' : tx.transactionError = false := by simpa using herr
    cases hfc : tx.nativeTransfers.find? (isCollectTransfer vault wallet) with
    | some ct =>
      unfold classifyTransaction at heq
      simp only [herr', Bool.false_eq_true, if_false, hfc] at heq
      obtain rfl := (Option.some.inj heq).symm
      exact ⟨ct, List.mem_of_find?_eq_some hfc, Or.inl rfl, rfl⟩
    | none =>
      cases hvo : tx.nativeTransfers.find? (isVaultOutflow vault) with
      | none =>
        unfold classifyTransaction at heq
        simp only [herr', Bool.false_eq_true, if_false, hfc, hvo] at heq
        exact absurd heq (by simp)
      | some vo =>
        unfold classifyTransaction at heq
        simp only [herr', Bool.false_eq_true, if_false, hfc, hvo] at heq
        have hmemvo := List.mem_of_find?_eq_some hvo
        split at heq
        · obtain rfl := (Option.some.inj heq).symm
          exact ⟨vo, hmemvo, Or.inr rfl, rfl⟩
        · split at heq
          · obtain rfl := (Option.some.inj heq).symm
            exact ⟨vo, hmemvo, Or.inr rfl, rfl⟩
          · split at heq
            · split at heq
              · obtain rfl := (Option.some.inj heq).symm
                exact ⟨vo, hmemvo, Or.inr rfl, rfl⟩
              · obtain rfl := (Option.some.inj heq).symm
                exact ⟨vo, hmemvo, Or.inr rfl, rfl⟩
            · obtain rfl := (Option.some.inj heq).symm
              exact ⟨vo, hmemvo, Or.inr rfl, rfl⟩

/-- C8 (amended): the amount coercion is total — bigints pass through,
finite numbers are floored (`Math.floor`: toward −∞, which is truncation
only for non-negative values), every pure-digit string is parsed to its
decimal value (leading zeros included; `valRev` of the reversed characters
is the positional value Σ dᵢ·10ⁱ), and everything else yields 0.
Consequently every event `classify` produces has `amountLamports` equal to
the coerced amount of the associated native transfer (the matched collect
transfer or the first vault outflow), hence non-negative whenever all of
the transaction's native-transfer amounts coerce to non-negative values. -/
theorem safeBigInt_total_and_classify_nonneg :
    (∀ n : Int, safeBigInt (.jsBig n) = n) ∧
    (∀ q : ℚ, safeBigInt (.jsNum q) = ⌊q⌋) ∧
    (∀ s : String, isDigitString s = true →
      safeBigInt (.jsStr s) = valRev s.data.reverse) ∧
    (∀ n : Nat, safeBigInt (.jsStr (natToDecimal n)) = n) ∧
    (∀ s : String, isDigitString s = false → safeBigInt (.jsStr s) = 0) ∧
    safeBigInt .jsNull = 0 ∧ safeBigInt .jsNaN = 0 ∧ safeBigInt .jsOther = 0 ∧
    (∀ (tx : ParsedTransaction) (vault wallet mint : String) (ev : ClassifiedEvent),
      classifyTransaction tx vault wallet mint = some ev →
      ∃ t ∈ tx.nativeTransfers,
        (tx.nativeTransfers.find? (isCollectTransfer vault wallet) = some t ∨
          tx.nativeTransfers.find? (isVaultOutflow vault) = some t) ∧
        ev.amountLamports = safeBigInt t.amount) ∧
    (∀ (tx : ParsedTransaction) (vault wallet mint : String) (ev : ClassifiedEvent),
      (∀ t ∈ tx.nativeTransfers, 0 ≤ safeBigInt t.amount) →
      classifyTransaction tx vault wallet mint = some ev →
      0 ≤ ev.amountLamports) := by
  refine ⟨fun n => rfl, fun q => rfl, ?_, ?_, ?_, rfl, rfl, rfl,
    classify_amount_of_transfer, ?_⟩
  · intro s hs
    show (if isDigitString s = true then ((decimalToNat s : Nat) : Int) else 0)
      = (valRev s.data.reverse : Int)
    rw [hs, if_pos rfl]
    congr 1
    show decimalToNatAux s.data 0 = valRev s.data.reverse
    conv_lhs => rw [← List.reverse_reverse s.data]
    exact decimalToNatAux_reverse s.data.reverse
  · intro n
    show (if isDigitString (natToDecimal n) = true
      then ((decimalToNat (natToDecimal n) : Nat) : Int) else 0) = n
    rw [isDigitString_natToDecimal n, if_pos rfl, decimalToNat_natToDecimal n]
  · intro s hs
    show (if isDigitString s = true then ((decimalToNat s : Nat) : Int) else 0) = 0
    rw [hs]
    simp
  · intro tx vault wallet mint ev hnn heq
    obtain ⟨t, hmem, _, hamt⟩ := classify_amount_of_transfer tx vault wallet mint ev heq
    rw [hamt]
    exact hnn t hmem

/-- The event `classify` produces on `wCollectTx` (C8 witness). -/
def wCollectEv : ClassifiedEvent :=
  { type := .collect, amountLamports := safeBigInt (.jsNum 5),
    signature := "sigC", blockTime := 3000,
    burnedTokenMint := none, burnedTokenAmount := none }

theorem safeBigInt_total_and_classify_nonneg_witness :
    safeBigInt (.jsStr "007") = 7 ∧
    safeBigInt (.jsStr (natToDecimal 123)) = 123 ∧
    (∃ t ∈ wCollectTx.nativeTransfers,
      (wCollectTx.nativeTransfers.find? (isCollectTransfer "VAULT" "WALLET") = some t ∨
        wCollectTx.nativeTransfers.find? (isVaultOutflow "VAULT") = some t) ∧
      wCollectEv.amountLamports = safeBigInt t.amount) ∧
    0 ≤ wCollectEv.amountLamports := by
  refine ⟨?_, safeBigInt_total_and_classify_nonneg.2.2.2.1 123, ?_, ?_⟩
  · rw [safeBigInt_total_and_classify_nonneg.2.2.1 "007" (by decide)]
    decide
  · exact safeBigInt_total_and_classify_nonneg.2.2.2.2.2.2.2.2.1 wCollectTx
      "VAULT" "WALLET" "MINT" wCollectEv rfl
  · refine safeBigInt_total_and_classify_nonneg.2.2.2.2.2.2.2.2.2 wCollectTx
      "VAULT" "WALLET" "MINT" wCollectEv ?_ rfl
    intro t ht
    simp only [wCollectTx, List.mem_singleton] at ht
    subst ht
    show (0 : Int) ≤ ⌊(5 : ℚ)⌋
    norm_num

/-- C8 counterexample input: a collect transfer carrying the malformed
amount `-1.5` (exactly representable in binary64). -/
def wNegTx : ParsedTransaction :=
  { signature := "sigN", timestamp := some 7, transactionError := false,
    description := none, accountData := [],
    nativeTransfers := [⟨"payer", "VAULT", .jsNum (-(3 : ℚ) / 2)⟩],
    tokenTransfers := [], instructions := [], events := ⟨none⟩ }

/-- C8 counterexample: the coercion uses `Math.floor`, not truncation
toward zero — on `-1.5` it returns `-2`, not `-1` — and the classified
event then carries a negative `amountLamports`. -/
theorem safeBigInt_not_truncation_cex :
    safeBigInt (.jsNum (-(3 : ℚ) / 2)) = -2 ∧
    safeBigInt (.jsNum (-(3 : ℚ) / 2)) ≠ -1 ∧
    classifyTransaction wNegTx "VAULT" "WALLET" "MINT" =
      some { type := .collect, amountLamports := -2, signature := "sigN",
             blockTime := 7000, burnedTokenMint := none,
             burnedTokenAmount := none } ∧
    (-2 : Int) < 0 := by
  have hf : safeBigInt (.jsNum (-(3 : ℚ) / 2)) = -2 := by
    show ⌊-(3 : ℚ) / 2⌋ = -2
    norm_num
  have hclass : classifyTransaction wNegTx "VAULT" "WALLET" "MINT" =
      some { type := .collect, amountLamports := safeBigInt (.jsNum (-(3 : ℚ) / 2)),
             signature := "sigN", blockTime := 7000,
             burnedTokenMint := none, burnedTokenAmount := none } := rfl
  refine ⟨hf, by rw [hf]; decide, by rw [hclass, hf], by decide⟩

/-! ## Event ledger and aggregates
(`src/workers/indexer.ts`, the db layer, `src/lib/badges.ts`) -/

/-- A persisted fee event row (`feeEvent` in the db layer /
`createFeeEvent`'s argument). -/
structure FeeEvent where
  tokenId : Int
  eventType : EventType
  amountLamports : Int
  signature : String
  blockTime : Int
  burnedTokenMint : Option String
  burnedTokenAmount : Option Int
deriving DecidableEq, Repr

/-- Function `calculateBurnPercentage` (badges.ts): `0` when nothing was collected,
otherwise `Number((burned * 10000n) / collected) / 100` rounded to two
decimals.  BigInt division truncates toward zero (`Int.tdiv`); the float
steps (`Number(q) / 100`, then round2) recover exactly the rational
`q / 100` throughout the representable range, so the result is embedded as
that rational. -/
def calculateBurnPercentage (totalCollected totalBurned : Int) : ℚ :=
  if totalCollected = 0 then 0
  else (((totalBurned * 10000).tdiv totalCollected : Int) : ℚ) / 100

/-- Badge tiers (badges.ts). -/
inductive BadgeTier where
  | fire
  | coffee
  | good
  | nervous
  | exiting
  | arsonist
deriving DecidableEq, Repr

/-- Function `calculateBadgeTier` (badges.ts). -/
def calculateBadgeTier (burnPercentage : ℚ) : BadgeTier :=
  if burnPercentage ≥ 95 then .fire
  else if burnPercentage ≥ 80 then .coffee
  else if burnPercentage ≥ 50 then .good
  else if burnPercentage ≥ 20 then .nervous
  else if burnPercentage ≥ 1 then .exiting
  else .arsonist

/-- The per-type aggregation of `recalculateTokenStats`
(`prisma.feeEvent.groupBy` with `_sum: amountLamports`, filtered by
`tokenId`), read off for one event type. -/
def sumByType (db : List FeeEvent) (tokenId : Int) (ty : EventType) : Int :=
  (db.filter fun e => e.tokenId == tokenId && e.eventType == ty).foldl
    (fun acc e => acc + e.amountLamports) 0

/-- The aggregate row written by `recalculateTokenStats` via
`updateTokenStats`. -/
structure TokenStats where
  totalFeesCollected : Int
  totalFeesBurned : Int
  totalFeesWithdrawn : Int
  totalFeesHeld : Int
  burnPercentage : ℚ
  badgeTier : BadgeTier
deriving DecidableEq, Repr

/-- Function `recalculateTokenStats`: per-type sums over the persisted events of the
token, `held = collected − burned − withdrawn` clamped at zero,
`burnPercentage` and `badgeTier` derived from the sums. -/
def recalculateTokenStats (db : List FeeEvent) (tokenId : Int) : TokenStats :=
  let totalCollected := sumByType db tokenId .collect
  let totalBurned := sumByType db tokenId .burn
  let totalWithdrawn := sumByType db tokenId .withdraw
  let totalHeld := totalCollected - totalBurned - totalWithdrawn
  let burnPercentage := calculateBurnPercentage totalCollected totalBurned
  { totalFeesCollected := totalCollected
    totalFeesBurned := totalBurned
    totalFeesWithdrawn := totalWithdrawn
    totalFeesHeld := if totalHeld < 0 then 0 else totalHeld
    burnPercentage := burnPercentage
    badgeTier := calculateBadgeTier burnPercentage }

/-- Modelled from the spec (§4.2 and §6: the relational store's
"insert-event-if-new-signature" contract; the schema declaring the unique
constraint is not under src/): inserting an event whose
`(tokenId, signature)` already exists raises the unique-constraint
violation `P2002` instead of writing. -/
def insertFeeEvent (db : List FeeEvent) (e : FeeEvent) :
    Except String (List FeeEvent) :=
  if db.any fun x => x.tokenId == e.tokenId && x.signature == e.signature then
    .error "P2002"
  else .ok (db ++ [e])

/-- The ingestion path's per-event save (`indexToken`): `createFeeEvent`
wrapped in a `try/catch` that swallows the duplicate error `P2002` and
reports any other error to the log. -/
def saveFeeEvent (db : List FeeEvent) (e : FeeEvent) :
    List FeeEvent × Option String :=
  match insertFeeEvent db e with
  | .ok db' => (db', none)
  | .error code => if code == "P2002" then (db, none) else (db, some code)

theorem saveFeeEvent_of_match (db : List FeeEvent) (e : FeeEvent)
    (h : ∃ x ∈ db, (x.tokenId == e.tokenId && x.signature == e.signature) = true) :
    saveFeeEvent db e = (db, none) := by
  unfold saveFeeEvent insertFeeEvent
  rw [if_pos (List.any_eq_true.mpr h)]
  rfl

theorem saveFeeEvent_match_mem (db : List FeeEvent) (e : FeeEvent) :
    ∃ x ∈ (saveFeeEvent db e).1,
      (x.tokenId == e.tokenId && x.signature == e.signature) = true := by
  by_cases hdup :
      (db.any fun x => x.tokenId == e.tokenId && x.signature == e.signature) = true
  · have h1 : saveFeeEvent db e = (db, none) :=
      saveFeeEvent_of_match db e (List.any_eq_true.mp hdup)
    rw [h1]
    exact List.any_eq_true.mp hdup
  · have h1 : saveFeeEvent db e = (db ++ [e], none) := by
      unfold saveFeeEvent insertFeeEvent
      rw [if_neg hdup]
    rw [h1]

    exact ⟨e, by simp⟩

/-- C5: appending the same `(tokenId, signature)` event twice leaves the
ledger contents — and hence the recomputed aggregate (totals, held,
`burnPercentage`, `badgeTier`) — identical to appending it once, and the
duplicate append surfaces no error to the caller. -/
theorem ledger_append_idempotent (db : List FeeEvent) (e : FeeEvent)
    (tokenId : Int) :
    (saveFeeEvent (saveFeeEvent db e).1 e).1 = (saveFeeEvent db e).1 ∧
    (saveFeeEvent (saveFeeEvent db e).1 e).2 = none ∧
    recalculateTokenStats (saveFeeEvent (saveFeeEvent db e).1 e).1 tokenId
      = recalculateTokenStats (saveFeeEvent db e).1 tokenId := by
  have h2 : saveFeeEvent (saveFeeEvent db e).1 e = ((saveFeeEvent db e).1, none) :=
    saveFeeEvent_of_match (saveFeeEvent db e).1 e (saveFeeEvent_match_mem db e)
  rw [h2]
  exact ⟨rfl, rfl, rfl⟩

theorem foldl_amount_shift : ∀ (l : List FeeEvent) (acc : Int),
    l.foldl (fun a e => a + e.amountLamports) acc
      = acc + l.foldl (fun a e => a + e.amountLamports) 0
  | [], acc => by simp
  | e :: t, acc => by
    simp only [List.foldl_cons]
    rw [foldl_amount_shift t (acc + e.amountLamports),
      foldl_amount_shift t (0 + e.amountLamports)]
    ring

theorem foldl_amount_nonneg (l : List FeeEvent)
    (h : ∀ e ∈ l, 0 ≤ e.amountLamports) :
    0 ≤ l.foldl (fun a e => a + e.amountLamports) 0 := by
  induction l with
  | nil => simp
  | cons e t ih =>
    simp only [List.foldl_cons]
    rw [foldl_amount_shift t (0 + e.amountLamports)]
    have h1 := h e (List.mem_cons_self e t)
    have h2 := ih fun x hx => h x (List.mem_cons_of_mem e hx)
    omega

theorem sumByType_nonneg (db : List FeeEvent) (tokenId : Int) (ty : EventType)
    (h : ∀ e ∈ db, 0 ≤ e.amountLamports) : 0 ≤ sumByType db tokenId ty := by
  apply foldl_amount_nonneg
  intro e he
  exact h e (List.mem_of_mem_filter he)

theorem sumByType_append (db : List FeeEvent) (e : FeeEvent) (tokenId : Int)
    (ty : EventType) :
    sumByType (db ++ [e]) tokenId ty
      = sumByType db tokenId ty +
        (if (e.tokenId == tokenId && e.eventType == ty) = true
          then e.amountLamports else 0) := by
  unfold sumByType
  rw [List.filter_append, List.foldl_append]
  by_cases hc : (e.tokenId == tokenId && e.eventType == ty) = true
  · rw [if_pos hc]
    simp only [List.filter_cons, hc, if_pos, List.filter_nil]
    rw [show ([e].foldl (fun a x => a + x.amountLamports)
        ((db.filter fun x => x.tokenId == tokenId && x.eventType == ty).foldl
          (fun a x => a + x.amountLamports) 0))
      = (db.filter fun x => x.tokenId == tokenId && x.eventType == ty).foldl
          (fun a x => a + x.amountLamports) 0 + e.amountLamports from rfl]
  · rw [if_neg hc]
    simp only [List.filter_cons, hc, Bool.false_eq_true, if_false, List.filter_nil,
      List.foldl_nil]
    omega

theorem calculateBurnPercentage_nonneg (c b : Int) (hc : 0 ≤ c) (hb : 0 ≤ b) :
    0 ≤ calculateBurnPercentage c b := by
  unfold calculateBurnPercentage
  split
  · exact le_refl 0
  · apply div_nonneg
    · exact_mod_cast Int.tdiv_nonneg (by positivity) hc
    · norm_num

theorem calculateBurnPercentage_le_100 (c b : Int) (hb : 0 ≤ b) (hbc : b ≤ c) :
    calculateBurnPercentage c b ≤ 100 := by
  unfold calculateBurnPercentage
  split
  · norm_num
  · rename_i hc0
    have hcpos : 0 < c := lt_of_le_of_ne (le_trans hb hbc) (Ne.symm hc0)
    have h1 : (b * 10000).tdiv c ≤ 10000 := by
      rw [Int.tdiv_eq_ediv (by positivity) (le_of_lt hcpos)]
      calc b * 10000 / c ≤ c * 10000 / c :=
            Int.ediv_le_ediv hcpos (by nlinarith)
        _ = 10000 := by rw [Int.mul_ediv_cancel_left _ (ne_of_gt hcpos)]
    rw [div_le_iff₀ (by norm_num : (0 : ℚ) < 100)]
    have : ((b * 10000).tdiv c : ℚ) ≤ 10000 := by exact_mod_cast h1
    linarith

theorem calculateBurnPercentage_mono (c b b' : Int) (hc : 0 ≤ c) (hb : 0 ≤ b)
    (hbb : b ≤ b') :
    calculateBurnPercentage c b ≤ calculateBurnPercentage c b' := by
  unfold calculateBurnPercentage
  by_cases hc0 : c = 0
  · rw [if_pos hc0, if_pos hc0]
  · rw [if_neg hc0, if_neg hc0]
    have hcpos : 0 < c := lt_of_le_of_ne hc (Ne.symm hc0)
    have h1 : (b * 10000).tdiv c ≤ (b' * 10000).tdiv c := by
      rw [Int.tdiv_eq_ediv (by positivity) (le_of_lt hcpos),
        Int.tdiv_eq_ediv (by nlinarith) (le_of_lt hcpos)]
      exact Int.ediv_le_ediv hcpos (by nlinarith)
    rw [div_le_div_iff_of_pos_right (by norm_num : (0 : ℚ) < 100)]
    exact_mod_cast h1

/-- C7 (amended): for aggregates recomputed from non-negative event
amounts, `burnPercentage` is non-negative; it is at most 100 *provided*
`totalBurned ≤ totalCollected` (which the code does not enforce — see the
counterexample); it is exactly 0 when `totalCollected = 0`; and appending a
further burn event leaves `totalCollected` fixed and never decreases
`burnPercentage`. -/
theorem burnPercentage_props (db : List FeeEvent) (tokenId : Int)
    (hnn : ∀ e ∈ db, 0 ≤ e.amountLamports) :
    0 ≤ (recalculateTokenStats db tokenId).burnPercentage ∧
    ((recalculateTokenStats db tokenId).totalFeesBurned ≤
        (recalculateTokenStats db tokenId).totalFeesCollected →
      (recalculateTokenStats db tokenId).burnPercentage ≤ 100) ∧
    ((recalculateTokenStats db tokenId).totalFeesCollected = 0 →
      (recalculateTokenStats db tokenId).burnPercentage = 0) ∧
    (∀ e : FeeEvent, e.tokenId = tokenId → e.eventType = .burn →
      0 ≤ e.amountLamports →
      (recalculateTokenStats (db ++ [e]) tokenId).totalFeesCollected
        = (recalculateTokenStats db tokenId).totalFeesCollected ∧
      (recalculateTokenStats db tokenId).burnPercentage
        ≤ (recalculateTokenStats (db ++ [e]) tokenId).burnPercentage) := by
  have hC : (recalculateTokenStats db tokenId).totalFeesCollected
      = sumByType db tokenId .collect := rfl
  have hB : (recalculateTokenStats db tokenId).totalFeesBurned
      = sumByType db tokenId .burn := rfl
  have hP : (recalculateTokenStats db tokenId).burnPercentage
      = calculateBurnPercentage (sumByType db tokenId .collect)
          (sumByType db tokenId .burn) := rfl
  have hCn := sumByType_nonneg db tokenId .collect hnn
  have hBn := sumByType_nonneg db tokenId .burn hnn
  refine ⟨?_, ?_, ?_, ?_⟩
  · rw [hP]
    exact calculateBurnPercentage_nonneg _ _ hCn hBn
  · intro hle
    rw [hB, hC] at hle
    rw [hP]
    exact calculateBurnPercentage_le_100 _ _ hBn hle
  · intro hc0
    rw [hC] at hc0
    rw [hP, hc0]
    unfold calculateBurnPercentage
    simp
  · intro e het hety hamt
    have hCapp : sumByType (db ++ [e]) tokenId .collect
        = sumByType db tokenId .collect := by
      rw [sumByType_append]
      have hfalse : (e.tokenId == tokenId && e.eventType == EventType.collect)
          = false := by
        rw [hety]
        simp
      simp [hfalse]
    have hBapp : sumByType (db ++ [e]) tokenId .burn
        = sumByType db tokenId .burn + e.amountLamports := by
      rw [sumByType_append]
      have htrue : (e.tokenId == tokenId && e.eventType == EventType.burn)
          = true := by
        simp [het, hety]
      simp [htrue]
    constructor
    · show sumByType (db ++ [e]) tokenId .collect = _
      rw [hCapp, hC]
    · rw [hP]
      show _ ≤ calculateBurnPercentage (sumByType (db ++ [e]) tokenId .collect)
        (sumByType (db ++ [e]) tokenId .burn)
      rw [hCapp, hBapp]
      exact calculateBurnPercentage_mono _ _ _ hCn hBn (by omega)

/-- C7 witness ledger: one collect of 4, one burn of 1. -/
def wGoodDb : List FeeEvent :=
  [⟨1, .collect, 4, "c1", 0, none, none⟩, ⟨1, .burn, 1, "b1", 0, some "M", some 1⟩]

/-- C7 witness burn event appended to `wGoodDb`. -/
def wBurnEvt : FeeEvent := ⟨1, .burn, 2, "b2", 0, some "M", some 2⟩

theorem burnPercentage_props_witness :
    0 ≤ (recalculateTokenStats wGoodDb 1).burnPercentage ∧
    (recalculateTokenStats wGoodDb 1).burnPercentage ≤ 100 ∧
    (recalculateTokenStats wGoodDb 1).burnPercentage
      ≤ (recalculateTokenStats (wGoodDb ++ [wBurnEvt]) 1).burnPercentage := by
  have h := burnPercentage_props wGoodDb 1 (by decide)
  exact ⟨h.1, h.2.1 (by decide), (h.2.2.2 wBurnEvt rfl rfl (by decide)).2⟩

/-- C7 counterexample ledger: one collect of 1 lamport, one burn of 2 —
nothing in the code keeps `totalBurned ≤ totalCollected`. -/
def wOverBurnDb : List FeeEvent :=
  [⟨1, .collect, 1, "c1", 0, none, none⟩, ⟨1, .burn, 2, "b1", 0, some "M", some 2⟩]

/-- C7 counterexample: with burned 2 against collected 1 the stored
`burnPercentage` is 200, outside `[0, 100]`. -/
theorem burnPercentage_above_100_cex :
    (recalculateTokenStats wOverBurnDb 1).burnPercentage = 200 ∧
    ¬(recalculateTokenStats wOverBurnDb 1).burnPercentage ≤ 100 := by
  have h : (recalculateTokenStats wOverBurnDb 1).burnPercentage
      = ((20000 : Int) : ℚ) / 100 := rfl
  rw [h]
  norm_num

end FeeTracker
